import Mathlib

/-!
Verification development for the Google Photos Takeout cleanup tool
(`main.go`).  The Go program is shallowly embedded: strings are lists of
characters, the filesystem is a partial map from paths to file contents,
directory listings are explicit lists of entries, and the external
exiftool subprocess is modelled by the list of output lines it produces
for one command.  Machine integers of the Go code are modelled by
`Nat`/`Int` (their values never approach the 64-bit range in the
modelled code paths, except for `strconv.ParseInt` whose explicit range
check is modelled).  The Go regular expressions used by the sidecar
matcher are all concatenations of quoted literals with the fragments
`(?:\..*)?`, `.*` and a trailing-`(digits)` capture, so they are
embedded by dedicated structural matchers with the exact RE2 semantics
of those fragments (`.` does not match a newline).
-/

/-- Go strings are modelled as lists of characters. -/
abbrev Str := List Char

/-- Shorthand to turn a Lean string literal into the model type. -/
def gs (s : String) : Str := s.data

/-- Left brace character, kept out of literals. -/
def lbrace : Char := Char.ofNat 123

/-- Right brace character, kept out of literals. -/
def rbrace : Char := Char.ofNat 125

/-- The sentinel line emitted by the exiftool subprocess. -/
def readyLine : Str := lbrace :: (gs "ready") ++ [rbrace]

/-- `strings.TrimSuffix`: drop `sfx` from the end of `s` when present. -/
def goTrimSuffix (s sfx : Str) : Str :=
  if sfx.isSuffixOf s then s.take (s.length - sfx.length) else s

/-- `filepath.Ext`: the suffix of the name starting at its last dot
(empty when the name has no dot).  Names here never contain a slash. -/
def goExt (s : Str) : Str :=
  let revAfter := s.reverse.takeWhile (fun c => !(c == '.'))
  if revAfter.length == s.length then [] else '.' :: revAfter.reverse

/-- The capture of the Go regex `^(.+)\((\d+)\)$` applied to a base
name: splits a trailing `(digits)` group off, returning the part before
the parenthesis and the digits.  The greedy `.+` makes the digits group
the maximal digit run right before a final `)`; `.` does not match a
newline, so the leading part must be newline free. -/
def splitNumSuffix (s : Str) : Option (Str × Str) :=
  match s.reverse with
  | ')' :: rest =>
    let dsRev := rest.takeWhile Char.isDigit
    match rest.drop dsRev.length with
    | '(' :: preRev =>
      if dsRev.isEmpty || preRev.isEmpty || !((preRev.all (fun c => !(c == '\n')))) then
        none
      else
        some (preRev.reverse, dsRev.reverse)
    | _ => none
  | _ => none

/-- The shapes of the Go regexes built by the sidecar matcher:
`optDot base tail` is `^base(?:\..*)?tail$`, `exact s` is `^s$`, and
`prefixAny pre tail` is `^pre.*tail$`, always with regex-quoted literal
parts. -/
inductive SidecarPattern where
  | optDot (base tail : Str)
  | exact (s : Str)
  | prefixAny (pre tail : Str)
deriving DecidableEq

/-- Whether a directory-entry name matches one of the sidecar regexes
(RE2 semantics of the three shapes above; `.` excludes newlines). -/
def patMatches : SidecarPattern → Str → Bool
  | .optDot base tail, name =>
    base.isPrefixOf name && tail.isSuffixOf name &&
    decide (base.length + tail.length ≤ name.length) &&
    (let mid := (name.drop base.length).take (name.length - base.length - tail.length)
     mid.isEmpty ||
       ((mid.head? == some '.') && (mid.drop 1).all (fun c => !(c == '\n'))))
  | .exact s, name => name == s
  | .prefixAny pre tail, name =>
    pre.isPrefixOf name && tail.isSuffixOf name &&
    decide (pre.length + tail.length ≤ name.length) &&
    ((name.drop pre.length).take (name.length - pre.length - tail.length)).all
      (fun c => !(c == '\n'))

/-- A media file as discovered by the scanner. -/
structure MediaFile where
  path : Str
  baseName : Str
  dir : Str
deriving DecidableEq

/-- One entry of a directory listing. -/
structure DirEntry where
  name : Str
  isDir : Bool
deriving DecidableEq

/-- The filesystem: maps a path to the file content when readable. -/
def FS := Str → Option Str

/-- `filepath.Join` for one directory and one clean file name. -/
def joinPath (dir name : Str) : Str := dir ++ '/' :: name

/-- `strings.Contains hay needle`: substring containment. -/
def goContains : Str → Str → Bool
  | hay, needle =>
    needle.isPrefixOf hay ||
      match hay with
      | [] => false
      | _ :: t => goContains t needle

/-- `isGooglePhotosSidecar`: content validation of a candidate sidecar
file.  An unreadable file is rejected; otherwise the content must
contain `photoTakenTime` and `timestamp`, and either contain `title` or
be shorter than 1000 characters. -/
def isGooglePhotosSidecar (fs : FS) (path : Str) : Bool :=
  match fs path with
  | none => false
  | some content =>
    goContains content (gs "photoTakenTime") &&
    goContains content (gs "timestamp") &&
    (goContains content (gs "title") || decide (content.length < 1000))

/-- The exact-pattern list built by `findSidecarFile` from the media
base name: numeric-suffix extraction, then the trailing-underscore
variants, exactly as the Go code assembles its regex strings. -/
def sidecarPatterns (baseName : Str) : List SidecarPattern :=
  let baseNameNoExt := goTrimSuffix baseName (goExt baseName)
  let split := splitNumSuffix baseNameNoExt
  let baseForSidecar :=
    match split with
    | some (pre, _) => pre ++ goExt baseName
    | none => baseName
  let sfxTok : Str :=
    match split with
    | some (_, ds) => '(' :: ds ++ [')']
    | none => []
  let stem := goTrimSuffix baseForSidecar (goExt baseForSidecar)
  let hasUnderscore := (gs "_").isSuffixOf stem
  let baseForSidecarNoU :=
    if hasUnderscore then goTrimSuffix stem (gs "_") ++ goExt baseForSidecar
    else baseForSidecar
  let baseNameNoUNoExt :=
    if hasUnderscore then goTrimSuffix stem (gs "_") else []
  let tail := sfxTok ++ gs ".json"
  SidecarPattern.optDot baseForSidecar tail ::
    (if baseForSidecarNoU ≠ baseForSidecar then
      [SidecarPattern.optDot baseForSidecarNoU tail,
       SidecarPattern.exact (baseNameNoUNoExt ++ tail)]
    else [])

/-- The stem and numeric-suffix token used by the progressive-prefix
fallback (`baseForMatching` and `numberSuffix` in the Go code). -/
def fswpmSplit (baseName : Str) : Str × Str :=
  let baseNameNoExt := goTrimSuffix baseName (goExt baseName)
  match splitNumSuffix baseNameNoExt with
  | some (pre, ds) => (pre, '(' :: ds ++ [')'])
  | none => (baseNameNoExt, [])

/-- The sidecar stem used for the length comparison: the entry name
without `.json` and without the numeric-suffix token. -/
def sidecarStem (numSfx name : Str) : Str :=
  goTrimSuffix (goTrimSuffix name (gs ".json")) numSfx

/-- The length-difference bound of the fallback: the media stem may be
at most one third longer than the sidecar stem, never shorter. -/
def lenBoundOk (base numSfx name : Str) : Bool :=
  let maxLenDiff : Int := ((base.length / 3 : Nat) : Int)
  let diff : Int := (base.length : Int) - ((sidecarStem numSfx name).length : Int)
  decide (diff ≤ maxLenDiff) && decide (0 ≤ diff)

/-- The descending list of prefix lengths tried by the fallback:
`hi, hi-1, ..., lo`. -/
def descLens (hi lo : Nat) : List Nat :=
  (List.range (hi + 1 - lo)).map (fun i => hi - i)

/-- `findSidecarWithPrefixMatching`: progressive prefix fallback.
Prefixes of the stem are tried from the full length down to a floor of
10 characters (or the full length when shorter); a non-directory entry
matching `^prefix.*numSfx\.json$` is returned when its content
validates and its stem length is within the bound. -/
def findSidecarWithPrefixMatching (file : MediaFile) (entries : List DirEntry)
    (fs : FS) : Option Str :=
  let base := (fswpmSplit file.baseName).1
  let numSfx := (fswpmSplit file.baseName).2
  let minPrefixLength := min 10 base.length
  (descLens base.length minPrefixLength).findSome? fun plen =>
    let pre := base.take plen
    entries.findSome? fun e =>
      let p := joinPath file.dir e.name
      if !e.isDir && patMatches (.prefixAny pre (numSfx ++ gs ".json")) e.name
          && isGooglePhotosSidecar fs p && lenBoundOk base numSfx e.name then
        some p
      else none

/-- `findSidecarFile`: exact-pattern matching in strict pattern order
(first content-valid match wins), then the progressive-prefix
fallback.  The directory listing is passed explicitly (the Go code
reads it from disk). -/
def findSidecarFile (file : MediaFile) (entries : List DirEntry) (fs : FS) :
    Option Str :=
  let exact := (sidecarPatterns file.baseName).findSome? fun pat =>
    entries.findSome? fun e =>
      let p := joinPath file.dir e.name
      if !e.isDir && patMatches pat e.name && isGooglePhotosSidecar fs p then
        some p
      else none
  match exact with
  | some p => some p
  | none => findSidecarWithPrefixMatching file entries fs

/-! ## JSON values and parsing (`encoding/json`) -/

/-- A parsed JSON document.  Numbers keep their raw text: the modelled
program never reads a numeric value out of a JSON number. -/
inductive Json where
  | null
  | bool (b : Bool)
  | num (raw : Str)
  | str (s : Str)
  | arr (elems : List Json)
  | obj (fields : List (Str × Json))

/-- JSON insignificant whitespace. -/
def isJsonWs (c : Char) : Bool :=
  c == ' ' || c == '\t' || c == '\n' || c == '\r'

/-- Skip insignificant whitespace. -/
def skipWs (cs : Str) : Str := cs.dropWhile isJsonWs

/-- Value of one hex digit. -/
def hexVal (c : Char) : Option Nat :=
  if '0' ≤ c && c ≤ '9' then some (c.toNat - 48)
  else if 'a' ≤ c && c ≤ 'f' then some (c.toNat - 87)
  else if 'A' ≤ c && c ≤ 'F' then some (c.toNat - 55)
  else none

/-- Parse the body of a JSON string after the opening quote, returning
the decoded characters and the rest of the input after the closing
quote.  Raw control characters are rejected; the standard escapes and
`\uXXXX` are decoded. -/
def parseStringBody : Nat → Str → Option (Str × Str)
  | 0, _ => none
  | fuel + 1, cs =>
    match cs with
    | [] => none
    | '"' :: rest => some ([], rest)
    | '\\' :: esc =>
      match esc with
      | 'u' :: a :: b :: c :: d :: rest => do
        let va ← hexVal a
        let vb ← hexVal b
        let vc ← hexVal c
        let vd ← hexVal d
        let code := ((va * 16 + vb) * 16 + vc) * 16 + vd
        let (s, r) ← parseStringBody fuel rest
        some (Char.ofNat code :: s, r)
      | e :: rest => do
        let ch ←
          if e == '"' then some '"'
          else if e == '\\' then some '\\'
          else if e == '/' then some '/'
          else if e == 'b' then some (Char.ofNat 8)
          else if e == 'f' then some (Char.ofNat 12)
          else if e == 'n' then some '\n'
          else if e == 'r' then some '\r'
          else if e == 't' then some '\t'
          else none
        let (s, r) ← parseStringBody fuel rest
        some (ch :: s, r)
      | [] => none
    | c :: rest =>
      if c.toNat < 32 then none
      else do
        let (s, r) ← parseStringBody fuel rest
        some (c :: s, r)

/-- Parse the exponent part of a JSON number (after `e`/`E`). -/
def parseExpTail (cs : Str) : Option (Str × Str) :=
  let (sgn, cs1) : Str × Str :=
    match cs with
    | '+' :: r => (['+'], r)
    | '-' :: r => (['-'], r)
    | r => ([], r)
  let ds := cs1.takeWhile Char.isDigit
  if ds.isEmpty then none else some (sgn ++ ds, cs1.drop ds.length)

/-- Parse a JSON number, returning its raw text and the rest. -/
def parseNumber (cs : Str) : Option (Str × Str) :=
  let (sgn, cs1) : Str × Str :=
    match cs with
    | '-' :: r => (['-'], r)
    | r => ([], r)
  let ds := cs1.takeWhile Char.isDigit
  let cs2 := cs1.drop ds.length
  if ds.isEmpty then none
  else if decide (1 < ds.length) && ds.head? == some '0' then none
  else
    let frTail :=
      match cs2 with
      | '.' :: r =>
        let fds := r.takeWhile Char.isDigit
        if fds.isEmpty then none else some ('.' :: fds, r.drop fds.length)
      | _ => some ([], cs2)
    match frTail with
    | none => none
    | some (fr, cs3) =>
      match cs3 with
      | 'e' :: r =>
        (parseExpTail r).map (fun pr => (sgn ++ ds ++ fr ++ 'e' :: pr.1, pr.2))
      | 'E' :: r =>
        (parseExpTail r).map (fun pr => (sgn ++ ds ++ fr ++ 'E' :: pr.1, pr.2))
      | _ => some (sgn ++ ds ++ fr, cs3)

mutual

/-- Parse one JSON value (fuel-bounded recursive descent). -/
def parseJsonVal : Nat → Str → Option (Json × Str)
  | 0, _ => none
  | fuel + 1, cs0 =>
    let cs := skipWs cs0
    match cs with
    | [] => none
    | c :: rest =>
      if c == 'n' then
        match rest with
        | 'u' :: 'l' :: 'l' :: r => some (.null, r)
        | _ => none
      else if c == 't' then
        match rest with
        | 'r' :: 'u' :: 'e' :: r => some (.bool true, r)
        | _ => none
      else if c == 'f' then
        match rest with
        | 'a' :: 'l' :: 's' :: 'e' :: r => some (.bool false, r)
        | _ => none
      else if c == '"' then
        (parseStringBody (fuel + 1) rest).map (fun pr => (.str pr.1, pr.2))
      else if c == '[' then
        match skipWs rest with
        | ']' :: r => some (.arr [], r)
        | cs2 => (parseJsonItems fuel cs2).map (fun pr => (.arr pr.1, pr.2))
      else if c == lbrace then
        match skipWs rest with
        | d :: r =>
          if d == rbrace then some (.obj [], r)
          else (parseJsonFields fuel (d :: r)).map (fun pr => (.obj pr.1, pr.2))
        | [] => none
      else
        (parseNumber cs).map (fun pr => (.num pr.1, pr.2))

/-- Parse the comma-separated items of a non-empty JSON array,
consuming the closing bracket. -/
def parseJsonItems : Nat → Str → Option (List Json × Str)
  | 0, _ => none
  | fuel + 1, cs => do
    let (v, r) ← parseJsonVal fuel cs
    match skipWs r with
    | ',' :: r2 => (parseJsonItems fuel r2).map (fun pr => (v :: pr.1, pr.2))
    | ']' :: r2 => some ([v], r2)
    | _ => none

/-- Parse the comma-separated members of a non-empty JSON object,
consuming the closing brace. -/
def parseJsonFields : Nat → Str → Option (List (Str × Json) × Str)
  | 0, _ => none
  | fuel + 1, cs =>
    match skipWs cs with
    | '"' :: r => do
      let (k, r1) ← parseStringBody (fuel + 1) r
      match skipWs r1 with
      | ':' :: r2 => do
        let (v, r3) ← parseJsonVal fuel r2
        match skipWs r3 with
        | ',' :: r4 => (parseJsonFields fuel r4).map (fun pr => ((k, v) :: pr.1, pr.2))
        | d :: r4 => if d == rbrace then some ([(k, v)], r4) else none
        | [] => none
      | _ => none
    | _ => none

end

/-- Parse a complete JSON document: one value with only whitespace
after it.  The fuel is generous enough for any input of this length. -/
def jsonParse (cs : Str) : Option Json :=
  match parseJsonVal (2 * cs.length + 2) cs with
  | some (j, rest) => if (skipWs rest).isEmpty then some j else none
  | none => none

/-! ## Unmarshal into the sidecar and album structures -/

/-- ASCII lower casing, as used by the JSON field-name folding. -/
def asciiLower (c : Char) : Char :=
  if 'A' ≤ c && c ≤ 'Z' then Char.ofNat (c.toNat + 32) else c

/-- `encoding/json` field-name matching: case-insensitive equality. -/
def equalFold (a b : Str) : Bool := a.map asciiLower == b.map asciiLower

/-- Decoding of the nested `photoTakenTime` object into its
`Timestamp` string field: keys are processed in order, a matching key
must hold a string (null leaves the field unchanged), later matches
overwrite earlier ones.  `none` models an unmarshal error. -/
def decodePTT (fields : List (Str × Json)) (ts : Str) : Option Str :=
  fields.foldl
    (fun acc kv =>
      acc.bind fun t =>
        if equalFold kv.1 (gs "timestamp") then
          match kv.2 with
          | .str s => some s
          | .null => some t
          | _ => none
        else some t)
    (some ts)

/-- `json.Unmarshal` of a document into the `SidecarData` structure,
returning the decoded `PhotoTakenTime.Timestamp` string (its zero value
is the empty string).  `none` models an unmarshal error: a non-object
document or a type mismatch on a matched field. -/
def decodeSidecarTimestamp (j : Json) : Option Str :=
  match j with
  | .null => some []
  | .obj fields =>
    fields.foldl
      (fun acc kv =>
        acc.bind fun t =>
          if equalFold kv.1 (gs "title") then
            match kv.2 with
            | .str _ => some t
            | .null => some t
            | _ => none
          else if equalFold kv.1 (gs "photoTakenTime") then
            match kv.2 with
            | .obj g => decodePTT g t
            | .null => some t
            | _ => none
          else some t)
      (some [])
  | _ => none

/-- Value of a nonempty all-digit string. -/
def digitsVal (ds : Str) : Nat :=
  ds.foldl (fun a c => a * 10 + (c.toNat - 48)) 0

/-- `strconv.ParseInt(s, 10, 64)`: an optional sign followed by a
nonempty run of decimal digits, rejected when out of the signed 64-bit
range. -/
def goParseInt64 (s : Str) : Option Int :=
  let (neg, ds) : Bool × Str :=
    match s with
    | '+' :: r => (false, r)
    | '-' :: r => (true, r)
    | r => (false, r)
  if ds.isEmpty || !(ds.all Char.isDigit) then none
  else
    let v := digitsVal ds
    if neg then if v ≤ 2 ^ 63 then some (-(v : Int)) else none
    else if v ≤ 2 ^ 63 - 1 then some (v : Int) else none

/-! ## Instants

An instant (`time.Time` restricted to whole seconds, which is all the
modelled code produces) is its count of seconds since the Unix epoch. -/

/-- Days from the civil epoch 1970-01-01 of a proleptic Gregorian date
(the standard days-from-civil algorithm). -/
def daysFromCivil (y : Int) (m d : Nat) : Int :=
  let yp : Int := if m ≤ 2 then y - 1 else y
  let era : Int := Int.fdiv yp 400
  let yoe : Nat := (yp - era * 400).toNat
  let mp : Nat := if 2 < m then m - 3 else m + 9
  let doy : Nat := (153 * mp + 2) / 5 + d - 1
  let doe : Nat := yoe * 365 + yoe / 4 - yoe / 100 + doy
  era * 146097 + (doe : Int) - 719468

/-- The instant of a UTC civil date and time, in Unix seconds. -/
def epochOfUTC (y : Int) (mo d h mi s : Nat) : Int :=
  daysFromCivil y mo d * 86400 + ((h * 3600 + mi * 60 + s : Nat) : Int)

/-- The zero `time.Time`: January 1, year 1, 00:00:00 UTC. -/
def goZeroInstant : Int := epochOfUTC 1 1 1 0 0 0

/-- `time.Time.IsZero`. -/
def goTimeIsZero (t : Int) : Bool := t == goZeroInstant

/-- `parseSidecarDate`: read the sidecar file, unmarshal it, parse the
string-encoded epoch seconds, and return `time.Unix(ts, 0)`.  Any
failure (unreadable file, malformed JSON, type mismatch, missing or
non-numeric timestamp) is `none`; the Go error text is not modelled. -/
def parseSidecarDate (fs : FS) (path : Str) : Option Int := do
  let content ← fs path
  let j ← jsonParse content
  let ts ← decodeSidecarTimestamp j
  let n ← goParseInt64 ts
  some n

/-! ## Embedded-metadata date parsing (`parseExifDate`) -/

/-- Exactly two decimal digits. -/
def p2dig : Str → Option (Nat × Str)
  | a :: b :: rest =>
    if a.isDigit && b.isDigit then
      some ((a.toNat - 48) * 10 + (b.toNat - 48), rest)
    else none
  | _ => none

/-- Exactly four decimal digits. -/
def p4dig (cs : Str) : Option (Nat × Str) := do
  let (hi, r) ← p2dig cs
  let (lo, r2) ← p2dig r
  some (hi * 100 + lo, r2)

/-- One expected literal character. -/
def pLit (c : Char) : Str → Option Str
  | a :: rest => if a == c then some rest else none
  | _ => none

/-- The shared `year sep month sep day tsep hh:mm:ss` core of the four
layouts accepted by `parseExifDate`. -/
def parseDateCore (dsep tsep : Char) (cs : Str) :
    Option ((Int × Nat × Nat × Nat × Nat × Nat) × Str) := do
  let (y, r) ← p4dig cs
  let r ← pLit dsep r
  let (mo, r) ← p2dig r
  let r ← pLit dsep r
  let (d, r) ← p2dig r
  let r ← pLit tsep r
  let (h, r) ← p2dig r
  let r ← pLit ':' r
  let (mi, r) ← p2dig r
  let r ← pLit ':' r
  let (s, r) ← p2dig r
  some (((y : Int), mo, d, h, mi, s), r)

/-- Gregorian leap year (years here are the nonnegative 4-digit ones). -/
def isLeapYear (y : Int) : Bool :=
  y % 4 == 0 && (!(y % 100 == 0) || y % 400 == 0)

/-- Length of a month. -/
def daysInMonth (y : Int) (m : Nat) : Nat :=
  if m == 2 then if isLeapYear y then 29 else 28
  else if m == 4 || m == 6 || m == 9 || m == 11 then 30
  else 31

/-- The range validation `time.Parse` applies to a parsed date. -/
def validDateClock : Int × Nat × Nat × Nat × Nat × Nat → Bool
  | (y, mo, d, h, mi, s) =>
    decide (1 ≤ mo) && decide (mo ≤ 12) && decide (1 ≤ d) &&
    decide (d ≤ daysInMonth y mo) && decide (h ≤ 23) && decide (mi ≤ 59) &&
    decide (s ≤ 59)

/-- Instant of a validated parse result, shifted by a zone offset. -/
def finishDate (v : Int × Nat × Nat × Nat × Nat × Nat) (offset : Int) :
    Option Int :=
  if validDateClock v then
    match v with
    | (y, mo, d, h, mi, s) => some (epochOfUTC y mo d h mi s - offset)
  else none

/-- Layout `2006:01:02 15:04:05` (UTC). -/
def parseExifFmtA (cs : Str) : Option Int := do
  let (v, r) ← parseDateCore ':' ' ' cs
  if r.isEmpty then finishDate v 0 else none

/-- Layout `2006-01-02T15:04:05Z` (trailing literal `Z`, UTC). -/
def parseExifFmtB (cs : Str) : Option Int := do
  let (v, r) ← parseDateCore '-' 'T' cs
  let r2 ← pLit 'Z' r
  if r2.isEmpty then finishDate v 0 else none

/-- Layout `2006-01-02T15:04:05-07:00` (numeric zone offset). -/
def parseExifFmtC (cs : Str) : Option Int := do
  let (v, r) ← parseDateCore '-' 'T' cs
  match r with
  | c :: r1 => do
    let sgn : Int ← if c == '+' then some 1 else if c == '-' then some (-1) else none
    let (zh, r2) ← p2dig r1
    let r3 ← pLit ':' r2
    let (zm, r4) ← p2dig r3
    if r4.isEmpty then finishDate v (sgn * ((zh * 3600 + zm * 60 : Nat) : Int))
    else none
  | [] => none

/-- Layout `2006-01-02 15:04:05` (UTC). -/
def parseExifFmtD (cs : Str) : Option Int := do
  let (v, r) ← parseDateCore '-' ' ' cs
  if r.isEmpty then finishDate v 0 else none

/-- `parseExifDate`: try the four known layouts in order. -/
def parseExifDate (cs : Str) : Option Int :=
  parseExifFmtA cs <|> parseExifFmtB cs <|> parseExifFmtC cs <|> parseExifFmtD cs

/-! ## Worker Process Handle operations -/

/-- `strings.TrimSpace` (ASCII whitespace). -/
def isGoSpace (c : Char) : Bool :=
  c == ' ' || c == '\t' || c == '\n' || c == '\r' ||
  c == Char.ofNat 11 || c == Char.ofNat 12

/-- Trim leading and trailing whitespace. -/
def goTrimSpace (s : Str) : Str :=
  ((s.dropWhile isGoSpace).reverse.dropWhile isGoSpace).reverse

/-- Whether a JSON value unmarshals into `map[string]interface` without
a type error (an object, or null giving the nil map). -/
def isObjOrNull : Json → Bool
  | .obj _ => true
  | .null => true
  | _ => false

/-- The string-valued fields of a decoded tag object. -/
def stringFields (fields : List (Str × Json)) : List (Str × Str) :=
  fields.filterMap fun kv =>
    match kv.2 with
    | .str s => some (kv.1, s)
    | _ => none

/-- `ExifToolProcess.GetMetadata`, as a function of the output lines
the subprocess emits before its ready marker: accumulate the lines,
trim, treat empty output as an empty tag map, otherwise unmarshal a
JSON array of tag objects and keep the string-valued tags of the first
object. -/
def getMetadataGo (lines : List Str) : Except Str (List (Str × Str)) :=
  let outLines := lines.takeWhile (fun l => !(l == readyLine))
  let outputStr := goTrimSpace (List.flatten (outLines.map (fun l => l ++ ['\n'])))
  if outputStr.isEmpty then .ok []
  else
    match jsonParse outputStr with
    | none => .error (gs "failed to parse exiftool JSON")
    | some j =>
      match j with
      | .null => .ok []
      | .arr els =>
        if els.all isObjOrNull then
          match els with
          | [] => .ok []
          | e :: _ =>
            match e with
            | .obj fields => .ok (stringFields fields)
            | _ => .ok []
        else .error (gs "failed to parse exiftool JSON")
      | _ => .error (gs "failed to parse exiftool JSON")

/-- `ExifToolProcess.UpdateAllDates`, as a function of the output lines
of the write command: drain lines until the ready marker; a line
containing an error or warning token is returned as a failure. -/
def updateAllDatesGo : List Str → Option Str
  | [] => none
  | l :: rest =>
    if l == readyLine then none
    else if goContains l (gs "Error:") || goContains l (gs "Warning:") then
      some (gs "exiftool error: " ++ l)
    else updateAllDatesGo rest

/-! ## Per-file processing (`processMediaFile`) -/

/-- Lookup in a Go map built from an association list (later inserts
overwrite earlier ones). -/
def goMapGet (m : List (Str × Str)) (k : Str) : Option Str :=
  ((m.filter (fun kv => kv.1 == k)).getLast?).map (fun kv => kv.2)

/-- The EXIF date tags, in priority order. -/
def exifDateTags : List Str :=
  [gs "DateTimeOriginal", gs "CreationDate", gs "CreateDate",
   gs "MediaCreateDate", gs "DateTimeCreated"]

/-- The tag-priority scan of `processMediaFile`: the first tag present
with a nonempty value that parses under one of the known layouts. -/
def firstExifDate (m : List (Str × Str)) : Option Int :=
  exifDateTags.findSome? fun tag =>
    match goMapGet m tag with
    | some ds => if ds.isEmpty then none else parseExifDate ds
    | none => none

/-- `json.Unmarshal` of an album `metadata.json` into its `Title`
string (`none` models an unmarshal error). -/
def decodeAlbumTitle (j : Json) : Option Str :=
  match j with
  | .null => some []
  | .obj fields =>
    fields.foldl
      (fun acc kv =>
        acc.bind fun t =>
          if equalFold kv.1 (gs "title") then
            match kv.2 with
            | .str s => some s
            | .null => some t
            | _ => none
          else some t)
      (some [])
  | _ => none

/-- `getAlbumName`: the title of `dir/metadata.json`, or empty on any
read or unmarshal failure. -/
def getAlbumName (fs : FS) (dir : Str) : Str :=
  match fs (joinPath dir (gs "metadata.json")) with
  | none => []
  | some c =>
    match jsonParse c with
    | none => []
    | some j =>
      match decodeAlbumTitle j with
      | none => []
      | some t => t

/-- Civil date of a day count from 1970-01-01 (standard
civil-from-days algorithm): year, month, day. -/
def civilFromDays (z0 : Int) : Int × Nat × Nat :=
  let z := z0 + 719468
  let era := Int.fdiv z 146097
  let doe : Nat := (z - era * 146097).toNat
  let yoe : Nat := (doe - doe / 1460 + doe / 36524 - doe / 146096) / 365
  let y : Int := (yoe : Int) + era * 400
  let doy : Nat := doe - (365 * yoe + yoe / 4 - yoe / 100)
  let mp : Nat := (5 * doy + 2) / 153
  let d : Nat := doy - (153 * mp + 2) / 5 + 1
  let m : Nat := if mp < 10 then mp + 3 else mp - 9
  (if m ≤ 2 then y + 1 else y, m, d)

/-- `fmt.Sprintf` with a `%0wd` verb. -/
def padNum (w : Nat) (n : Int) : Str :=
  if n < 0 then
    let digits := (Nat.repr (-n).toNat).data
    '-' :: List.replicate ((w - 1) - digits.length) '0' ++ digits
  else
    let digits := (Nat.repr n.toNat).data
    List.replicate (w - digits.length) '0' ++ digits

/-- `generateDestinationPath`: `outputDir/ALL_PHOTOS/YYYY/MM/DD/name`. -/
def generateDestinationPath (outputDir fileName : Str) (date : Int) : Str :=
  let ymd := civilFromDays (Int.fdiv date 86400)
  joinPath (joinPath (joinPath (joinPath (joinPath outputDir (gs "ALL_PHOTOS"))
    (padNum 4 ymd.1)) (padNum 2 ymd.2.1)) (padNum 2 ymd.2.2)) fileName

/-- `generateAlbumSymlinkPath`: `outputDir/ALBUMS/album/name`. -/
def generateAlbumSymlinkPath (outputDir albumName fileName : Str) : Str :=
  joinPath (joinPath (joinPath outputDir (gs "ALBUMS")) albumName) fileName

/-- The application configuration. -/
structure GoConfig where
  sourceDir : Str
  outputDir : Str
  move : Bool
  dryRun : Bool
  workers : Int

/-- The result of processing one file. -/
structure GoResult where
  file : MediaFile
  success : Bool
  action : Str
  error : Option Str
deriving DecidableEq

/-- The per-file environment of one worker: the subprocess response
lines for the read and the (possible) write command, the media file's
directory listing, the filesystem, and the outcomes of the move and
symlink side effects. -/
structure WorkerEnv where
  readLines : List Str
  writeLines : List Str
  entries : List DirEntry
  fs : FS
  moveErr : Option Str
  symlinkErr : Option Str

/-- An early `return result` of `processMediaFile` with the error set
and whatever action text had been accumulated. -/
def failResult (file : MediaFile) (action msg : Str) : GoResult :=
  { file := file, success := false, action := action, error := some msg }

/-- The fallthrough end of `processMediaFile`: default the action text
and mark success. -/
def finishResult (file : MediaFile) (action : Str) : GoResult :=
  { file := file, success := true,
    action := if action.isEmpty then gs "No action needed" else action,
    error := none }

/-- The move-and-album-symlink tail of `processMediaFile`, entered with
the accumulated action text and the resolved creation date. -/
def moveAndLink (cfg : GoConfig) (env : WorkerEnv) (file : MediaFile)
    (action0 : Str) (creationDate : Int) : GoResult :=
  if cfg.move && !(goTimeIsZero creationDate) then
    let destPath := generateDestinationPath cfg.outputDir file.baseName creationDate
    let afterMove : Except Str Str :=
      if cfg.dryRun then .ok (action0 ++ gs " | Would move to: " ++ destPath)
      else
        match env.moveErr with
        | some e => .error (gs "failed to move file: " ++ e)
        | none => .ok (action0 ++ gs " | Moved to: " ++ destPath)
    match afterMove with
    | .error msg => failResult file action0 msg
    | .ok action1 =>
      let albumName := getAlbumName env.fs file.dir
      if albumName.isEmpty then finishResult file action1
      else
        let symlinkPath := generateAlbumSymlinkPath cfg.outputDir albumName file.baseName
        let action2 :=
          if cfg.dryRun then
            action1 ++ gs " | Would create album symlink: " ++ symlinkPath
          else
            match env.symlinkErr with
            | some e => action1 ++ gs " | Symlink error: " ++ e
            | none => action1 ++ gs " | Album symlink created: " ++ symlinkPath
        finishResult file action2
  else finishResult file action0

/-- `processMediaFile`: read embedded metadata, scan the tag priority
list, fall back to the sidecar (resolve, parse, write back unless a dry
run), then optionally move and create the album symlink.  Error detail
strings of the collaborators are carried coarsely. -/
def processMediaFile (cfg : GoConfig) (env : WorkerEnv) (file : MediaFile) :
    GoResult :=
  match getMetadataGo env.readLines with
  | .error e => failResult file [] (gs "failed to get EXIF data: " ++ e)
  | .ok exifData =>
    match firstExifDate exifData with
    | some date => moveAndLink cfg env file [] date
    | none =>
      match findSidecarFile file env.entries env.fs with
      | some sidecarPath =>
        match parseSidecarDate env.fs sidecarPath with
        | some date =>
          match (if cfg.dryRun then none else updateAllDatesGo env.writeLines) with
          | some e => failResult file [] (gs "failed to update EXIF date: " ++ e)
          | none => moveAndLink cfg env file (gs "Updated EXIF from sidecar") date
        | none => failResult file [] (gs "failed to parse sidecar date")
      | none => failResult file [] (gs "no creation date found in EXIF or sidecar")

/-! ## Worker Pool Manager -/

/-- One worker subprocess handle, abstracted to its identity and the
outcome its close will report. -/
structure ProcSim where
  pid : Nat
  closeErr : Option Str
deriving DecidableEq

/-- `ExifToolManager.Close`: close every handle in order, remembering
the error of the latest close that failed.  The first component lists
the handles a close was attempted on, in order. -/
def closeAllGo (ps : List ProcSim) : List Nat × Option Str :=
  ps.foldl
    (fun acc p =>
      (acc.1 ++ [p.pid],
       match p.closeErr with
       | some e => some e
       | none => acc.2))
    ([], none)

/-- The environment of pool startup: whether the executable is on the
path, and the outcome of the i-th subprocess start. -/
structure PoolEnv where
  exiftoolOnPath : Bool
  spawn : Nat → Except Str ProcSim

/-- Decimal rendering of a worker index. -/
def natStr (n : Nat) : Str := (Nat.repr n).data

/-- The creation loop of `NewExifToolManager`: start handles in index
order; on a failure, close every handle created so far (first
component) and report which start failed. -/
def poolAux (env : PoolEnv) : List Nat → List ProcSim →
    List Nat × Except Str (List ProcSim)
  | [], acc => ([], .ok acc)
  | i :: rest, acc =>
    match env.spawn i with
    | .error e =>
      (acc.map (fun p => p.pid),
       .error (gs "failed to start ExifTool process " ++ natStr i ++ gs ": " ++ e))
    | .ok p => poolAux env rest (acc ++ [p])

/-- `NewExifToolManager`: check the executable is on the path, then
eagerly create one handle per worker with rollback on failure. -/
def newExifToolManagerGo (env : PoolEnv) (workerCount : Nat) :
    List Nat × Except Str (List ProcSim) :=
  if env.exiftoolOnPath then poolAux env (List.range workerCount) []
  else ([], .error (gs "exiftool not found in PATH"))

/-! Concrete inputs for the sidecar-matcher claims. -/

/-- A content-valid sidecar body. -/
def sidecarBody : Str :=
  gs "\x7b\"title\": \"x.jpg\", \"photoTakenTime\": \x7b\"timestamp\": \"1672531200\"\x7d\x7d"

/-- A filesystem holding content-valid sidecars at the given names
under directory `d`. -/
def sidecarFS (names : List Str) : FS := fun p =>
  if names.any (fun n => joinPath (gs "d") n == p) then some sidecarBody else none

/-- A media file named `b` in directory `d`. -/
def mediaIn (b : String) : MediaFile :=
  { path := joinPath (gs "d") (gs b), baseName := gs b, dir := gs "d" }

/-- A plain (non-directory) listing entry. -/
def entryOf (n : String) : DirEntry := { name := gs n, isDir := false }

/-- Concrete startup environment for the C6 witness: the third
subprocess start fails. -/
def poolEnvW : PoolEnv :=
  { exiftoolOnPath := true,
    spawn := fun i =>
      if i < 2 then .ok { pid := i, closeErr := none } else .error (gs "boom") }

/-- The companion content of the C5 test vector. -/
def c5content : Str :=
  gs "\x7b\"title\":\"t.jpg\",\"photoTakenTime\":\x7b\"timestamp\":\"1672531200\"\x7d\x7d"

/-- A filesystem holding only that companion file. -/
def c5fs : FS := fun p =>
  if p = gs "/takeout/t.jpg.supplemental-metadata.json" then some c5content else none

/-! ## Helper lemmas -/

theorem goContains_eq_true_iff (hay needle : Str) :
    goContains hay needle = true ↔ needle <:+: hay := by
  induction hay with
  | nil =>
    rw [goContains]
    simp [ List.isPrefixOf_iff_prefix]
  | cons a t ih =>
    rw [goContains]
    simp only [Bool.or_eq_true, List.isPrefixOf_iff_prefix, ih,
      List.infix_cons_iff]

theorem mem_descLens {hi lo n : Nat} (h : n ∈ descLens hi lo) :
    lo ≤ n ∧ n ≤ hi := by
  unfold descLens at h
  obtain ⟨i, hmem, rfl⟩ := List.mem_map.mp h
  have := List.mem_range.mp hmem
  omega

/-! ## Claim theorems -/

/-- C10.  The content-validation predicate accepts a readable candidate
exactly when its content contains `photoTakenTime` and `timestamp` and
either contains `title` or is shorter than 1000 characters; an
unreadable candidate is always rejected. -/
theorem isGooglePhotosSidecar_characterization (fs : FS) (path : Str) :
    isGooglePhotosSidecar fs path = true ↔
      ∃ content, fs path = some content ∧
        (gs "photoTakenTime") <:+: content ∧
        (gs "timestamp") <:+: content ∧
        ((gs "title") <:+: content ∨ content.length < 1000) := by
  unfold isGooglePhotosSidecar
  cases h : fs path with
  | none => simp
  | some c =>
    simp only [Bool.and_eq_true, Bool.or_eq_true, goContains_eq_true_iff,
      decide_eq_true_eq, Option.some.injEq]
    constructor
    · rintro ⟨⟨h1, h2⟩, h3⟩
      exact ⟨c, rfl, h1, h2, h3⟩
    · rintro ⟨c2, hc2, h1, h2, h3⟩
      cases hc2
      exact ⟨⟨h1, h2⟩, h3⟩

/-- C8.  A read-metadata response with no output lines before the ready
marker yields an empty tag map and no error. -/
theorem getMetadata_empty_output (lines : List Str)
    (h : lines.takeWhile (fun l => !(l == readyLine)) = []) :
    getMetadataGo lines = .ok [] := by
  unfold getMetadataGo
  rw [h]
  rfl

/-- Witness for C8 at the one-line response consisting of the ready
marker only. -/
theorem getMetadata_empty_output_witness :
    ([readyLine].takeWhile (fun l => !(l == readyLine)) = []) ∧
      getMetadataGo [readyLine] = .ok [] :=
  ⟨by decide, getMetadata_empty_output [readyLine] (by decide)⟩

/-- C7.  A write-metadata response is a failure carrying the first line
before the ready marker that contains an error or warning token, and a
success when there is no such line: the drain never stops at the first
non-offending line and the marker itself ends the scan. -/
theorem updateAllDates_error_line (lines : List Str) :
    updateAllDatesGo lines =
      ((lines.takeWhile (fun l => !(l == readyLine))).find?
          (fun l => goContains l (gs "Error:") || goContains l (gs "Warning:"))).map
        (fun l => gs "exiftool error: " ++ l) := by
  induction lines with
  | nil => rfl
  | cons l rest ih =>
    by_cases h1 : (l == readyLine) = true
    · simp [updateAllDatesGo, h1]
    · by_cases h2 : (goContains l (gs "Error:") || goContains l (gs "Warning:")) = true
      · simp [updateAllDatesGo, h1, h2, List.takeWhile_cons, List.find?_cons]
      · simp [updateAllDatesGo, h1, h2, List.takeWhile_cons, List.find?_cons, ih]

/-- C3 counterexample: with two failing closes the manager reports the
second (last) error, not the first. -/
theorem closeAll_last_not_first_cex :
    closeAllGo [⟨0, some (gs "e0")⟩, ⟨1, some (gs "e1")⟩] = ([0, 1], some (gs "e1")) ∧
    ([(⟨0, some (gs "e0")⟩ : ProcSim), ⟨1, some (gs "e1")⟩].filterMap
        ProcSim.closeErr).head? = some (gs "e0") ∧
    (some (gs "e1") : Option Str) ≠ some (gs "e0") := by
  refine ⟨by decide, by decide, by decide⟩

theorem closeAllGo_foldl (ps : List ProcSim) (l : List Nat) (a : Option Str) :
    ps.foldl
        (fun acc p =>
          (acc.1 ++ [p.pid],
           match p.closeErr with
           | some e => some e
           | none => acc.2))
        (l, a) =
      (l ++ ps.map ProcSim.pid,
       match (ps.filterMap ProcSim.closeErr).getLast? with
       | some e => some e
       | none => a) := by
  induction ps generalizing l a with
  | nil => simp
  | cons p rest ih =>
    rw [List.foldl_cons, ih]
    cases hp : p.closeErr with
    | none => simp [List.filterMap_cons, hp]
    | some e =>
      simp only [List.filterMap_cons, hp, List.map_cons, List.append_assoc,
        List.singleton_append]
      cases hr : (rest.filterMap ProcSim.closeErr) with
      | nil => simp
      | cons x xs =>
        rw [List.getLast?_cons_cons]
        cases hg : (x :: xs).getLast? with
        | none => exact absurd (List.getLast?_eq_none_iff.mp hg) (List.cons_ne_nil x xs)
        | some y => rfl

/-- C3 amended.  `Close` attempts to close every handle in order and
reports the error of the last close that failed (none when all
succeed), not the first. -/
theorem closeAll_closes_all_reports_last (ps : List ProcSim) :
    closeAllGo ps = (ps.map ProcSim.pid, (ps.filterMap ProcSim.closeErr).getLast?) := by
  unfold closeAllGo
  rw [closeAllGo_foldl]
  cases h : (ps.filterMap ProcSim.closeErr).getLast? with
  | none => simp
  | some e => simp

/-- C1.  For `3x (1).jpg` with a content-valid companion named
`3x (1).jpg.supplemental-metadata.json` in the listing, the matcher
returns nothing: the trailing `(1)` of the real filename is consumed as
a numbering suffix, every generated pattern demands `(1)` right before
`.json`, and the fallback does the same, so the companion that keeps
the parenthesized text verbatim is missed. -/
theorem findSidecar_literal_paren_missed :
    isGooglePhotosSidecar (sidecarFS [gs "3x (1).jpg.supplemental-metadata.json"])
        (joinPath (gs "d") (gs "3x (1).jpg.supplemental-metadata.json")) = true ∧
    findSidecarFile (mediaIn "3x (1).jpg")
        [entryOf "3x (1).jpg", entryOf "3x (1).jpg.supplemental-metadata.json"]
        (sidecarFS [gs "3x (1).jpg.supplemental-metadata.json"]) = none := by
  refine ⟨by decide, by decide⟩

/-- C2.  Soundness of the progressive-prefix fallback: whatever it
returns is a non-directory listing entry ending in `.json`, content
valid, starting with the stem prefix of the floor length
(10 characters, or the full stem when shorter), and whose stem (after
stripping `.json` and the numeric-suffix token) is at most one third of
the media stem length shorter than the media stem and never longer; in
particular an unrelated JSON file outside that bound is never
selected. -/
theorem findSidecarWithPrefixMatching_sound (file : MediaFile)
    (entries : List DirEntry) (fs : FS) (p : Str)
    (h : findSidecarWithPrefixMatching file entries fs = some p) :
    ∃ e, e ∈ entries ∧ p = joinPath file.dir e.name ∧ e.isDir = false ∧
      (gs ".json") <:+ e.name ∧
      isGooglePhotosSidecar fs p = true ∧
      ((fswpmSplit file.baseName).1.take
        (min 10 (fswpmSplit file.baseName).1.length)) <+: e.name ∧
      0 ≤ ((fswpmSplit file.baseName).1.length : Int) -
          ((sidecarStem (fswpmSplit file.baseName).2 e.name).length : Int) ∧
      ((fswpmSplit file.baseName).1.length : Int) -
          ((sidecarStem (fswpmSplit file.baseName).2 e.name).length : Int) ≤
        (((fswpmSplit file.baseName).1.length / 3 : Nat) : Int) := by
  simp only [findSidecarWithPrefixMatching] at h
  obtain ⟨plen, hplen, h2⟩ := List.exists_of_findSome?_eq_some h
  obtain ⟨e, he, h3⟩ := List.exists_of_findSome?_eq_some h2
  rw [Option.ite_none_right_eq_some, Option.some.injEq] at h3
  obtain ⟨hcond, hp⟩ := h3
  simp only [Bool.and_eq_true] at hcond
  obtain ⟨⟨⟨hdir, hpat⟩, hgp⟩, hbound⟩ := hcond
  simp only [patMatches, Bool.and_eq_true] at hpat
  obtain ⟨⟨⟨hpre, hsuf⟩, _hlen⟩, _hmid⟩ := hpat
  simp only [lenBoundOk, Bool.and_eq_true, decide_eq_true_eq] at hbound
  obtain ⟨hle, hge⟩ := hbound
  refine ⟨e, he, hp.symm, ?_, ?_, ?_, ?_, hge, hle⟩
  · simpa using hdir
  · exact List.IsSuffix.trans
      (List.suffix_append (fswpmSplit file.baseName).2 (gs ".json"))
      (List.isSuffixOf_iff_suffix.mp hsuf)
  · rw [hp] at hgp
    exact hgp
  · have hmin : min 10 (fswpmSplit file.baseName).1.length ≤ plen :=
      (mem_descLens hplen).1
    have h1 : (fswpmSplit file.baseName).1.take
        (min 10 (fswpmSplit file.baseName).1.length) <+:
        (fswpmSplit file.baseName).1.take plen := by
      rw [List.take_isPrefix_take]
      exact Or.inl hmin
    exact h1.trans ( List.isPrefixOf_iff_prefix.mp hpre)

/-- Witness for C2: a truncated pair matched by the fallback (stem of
11 characters, sidecar stem one character shorter). -/
theorem findSidecarWithPrefixMatching_sound_witness :
    ∃ e, e ∈ [entryOf "0123456789X.jpg", entryOf "0123456789.json"] ∧
      joinPath (gs "d") (gs "0123456789.json") = joinPath ((mediaIn "0123456789X.jpg").dir) e.name ∧
      e.isDir = false ∧
      (gs ".json") <:+ e.name ∧
      isGooglePhotosSidecar (sidecarFS [gs "0123456789.json"])
        (joinPath (gs "d") (gs "0123456789.json")) = true ∧
      ((fswpmSplit (mediaIn "0123456789X.jpg").baseName).1.take
        (min 10 (fswpmSplit (mediaIn "0123456789X.jpg").baseName).1.length)) <+: e.name ∧
      0 ≤ ((fswpmSplit (mediaIn "0123456789X.jpg").baseName).1.length : Int) -
          ((sidecarStem (fswpmSplit (mediaIn "0123456789X.jpg").baseName).2 e.name).length : Int) ∧
      ((fswpmSplit (mediaIn "0123456789X.jpg").baseName).1.length : Int) -
          ((sidecarStem (fswpmSplit (mediaIn "0123456789X.jpg").baseName).2 e.name).length : Int) ≤
        (((fswpmSplit (mediaIn "0123456789X.jpg").baseName).1.length / 3 : Nat) : Int) :=
  findSidecarWithPrefixMatching_sound (mediaIn "0123456789X.jpg")
    [entryOf "0123456789X.jpg", entryOf "0123456789.json"]
    (sidecarFS [gs "0123456789.json"])
    (joinPath (gs "d") (gs "0123456789.json")) (by decide)

/-- C4.  The numeric suffix of `IMG_456(1).jpg` is expected after the
companion naming token, so `IMG_456.jpg.supplemental-metadata(1).json`
is returned; and for `blank.jpg` the truncated token form
`blank.jpg.su.json` is returned. -/
theorem findSidecar_suffix_and_truncated_token :
    findSidecarFile (mediaIn "IMG_456(1).jpg")
        [entryOf "IMG_456(1).jpg", entryOf "IMG_456.jpg.supplemental-metadata(1).json"]
        (sidecarFS [gs "IMG_456.jpg.supplemental-metadata(1).json"]) =
      some (joinPath (gs "d") (gs "IMG_456.jpg.supplemental-metadata(1).json")) ∧
    findSidecarFile (mediaIn "blank.jpg")
        [entryOf "blank.jpg", entryOf "blank.jpg.su.json"]
        (sidecarFS [gs "blank.jpg.su.json"]) =
      some (joinPath (gs "d") (gs "blank.jpg.su.json")) := by
  refine ⟨by decide, by decide⟩

/-! ## Pool startup (C6) -/

theorem poolAux_append_ok (env : PoolEnv) (ps : Nat → ProcSim) (l1 : List Nat)
    (h : ∀ j ∈ l1, env.spawn j = .ok (ps j)) (l2 : List Nat) (acc : List ProcSim) :
    poolAux env (l1 ++ l2) acc = poolAux env l2 (acc ++ l1.map ps) := by
  induction l1 generalizing acc with
  | nil => simp
  | cons i t ih =>
    have hi := h i (List.mem_cons_self i t)
    simp only [List.cons_append, poolAux, hi, List.append_eq]
    rw [ih (fun j hj => h j (List.mem_cons_of_mem i hj))]
    simp

theorem poolAux_ok_length (env : PoolEnv) (idxs : List Nat) :
    ∀ acc res, (poolAux env idxs acc).2 = .ok res →
      res.length = acc.length + idxs.length := by
  induction idxs with
  | nil =>
    intro acc res h
    simp only [poolAux] at h
    cases h
    simp
  | cons i t ih =>
    intro acc res h
    simp only [poolAux] at h
    cases hs : env.spawn i with
    | error e => rw [hs] at h; simp at h
    | ok pr =>
      rw [hs] at h
      have := ih (acc ++ [pr]) res h
      simp at this ⊢
      omega

theorem range_split (k n : Nat) (h : k < n) :
    List.range n = List.range k ++ k :: List.range' (k + 1) (n - (k + 1)) := by
  calc List.range n = List.range' 0 n := List.range_eq_range' n
    _ = List.range' 0 ((n - k) + k) := by rw [show (n - k) + k = n by omega]
    _ = List.range' 0 k ++ List.range' (0 + 1 * k) (n - k) :=
        (List.range'_append 0 k (n - k) 1).symm
    _ = List.range k ++ List.range' k (n - k) := by
        rw [← List.range_eq_range' k]
        simp
    _ = List.range k ++ (k :: List.range' (k + 1) (n - (k + 1))) := by
        rw [show n - k = (n - (k + 1)) + 1 by omega, List.range'_succ]

/-- C6.  Pool startup: when the creation of the k-th handle fails, the
constructor closes exactly the k previously created handles (in
creation order) and reports that failure; and a pool value is only ever
returned complete, with one handle per requested worker. -/
theorem newExifToolManager_rollback :
    (∀ (env : PoolEnv) (n k : Nat) (e : Str) (ps : Nat → ProcSim),
      env.exiftoolOnPath = true → k < n →
      (∀ j, j < k → env.spawn j = .ok (ps j)) → env.spawn k = .error e →
      newExifToolManagerGo env n =
        ((List.range k).map (fun j => (ps j).pid),
         .error (gs "failed to start ExifTool process " ++ natStr k ++ gs ": " ++ e))) ∧
    (∀ (env : PoolEnv) (n : Nat) (res : List ProcSim),
      (newExifToolManagerGo env n).2 = .ok res → res.length = n) := by
  constructor
  · intro env n k e ps hpath hk hok hfail
    unfold newExifToolManagerGo
    rw [if_pos hpath]
    rw [range_split k n hk]
    rw [poolAux_append_ok env ps (List.range k)
      (fun j hj => hok j (List.mem_range.mp hj))]
    simp only [poolAux, hfail, List.nil_append]
    rw [List.map_map]
    rfl
  · intro env n res h
    unfold newExifToolManagerGo at h
    by_cases hb : env.exiftoolOnPath = true
    · rw [if_pos hb] at h
      have := poolAux_ok_length env (List.range n) [] res h
      simpa using this
    · rw [if_neg hb] at h
      simp at h

/-- Witness for C6: with four requested workers and the third start
failing, the two created handles are rolled back and the failure names
worker 2. -/
theorem newExifToolManager_rollback_witness :
    newExifToolManagerGo poolEnvW 4 =
      ([0, 1], .error (gs "failed to start ExifTool process 2: boom")) := by
  have h := newExifToolManager_rollback.1 poolEnvW 4 2 (gs "boom")
    (fun j => { pid := j, closeErr := none }) rfl (by omega)
    (fun j hj => by
      simp only [poolEnvW]
      rw [if_pos hj])
    rfl
  rw [h]
  rfl

/-! ## Sidecar timestamp parsing (C5) -/

/-- C5.  The canonical companion content parses to exactly the instant
2023-01-01T00:00:00Z (epoch second 1672531200); and in general a parse
succeeds only when the file is readable, its JSON is well formed, the
nested timestamp string is present, and that string is a decimal
integer in range, the result being exactly that integer — never a zero
or default instant standing in for a failure. -/
theorem parseSidecarDate_epoch_and_no_default :
    parseSidecarDate c5fs (gs "/takeout/t.jpg.supplemental-metadata.json") =
      some 1672531200 ∧
    epochOfUTC 2023 1 1 0 0 0 = 1672531200 ∧
    (∀ (fs : FS) (p : Str) (t : Int),
      parseSidecarDate fs p = some t →
      ∃ content j s, fs p = some content ∧ jsonParse content = some j ∧
        decodeSidecarTimestamp j = some s ∧ goParseInt64 s = some t) := by
  refine ⟨by decide, by decide, ?_⟩
  intro fs p t h
  simp only [parseSidecarDate, Option.bind_eq_bind, Option.bind_eq_some] at h
  obtain ⟨content, hc, j, hj, s, hs, n, hn, ht⟩ := h
  cases ht
  exact ⟨content, j, s, hc, hj, hs, hn⟩

/-- Witness for C5: the success-inversion direction applied to the
concrete companion file. -/
theorem parseSidecarDate_epoch_and_no_default_witness :
    ∃ content j s,
      c5fs (gs "/takeout/t.jpg.supplemental-metadata.json") = some content ∧
      jsonParse content = some j ∧ decodeSidecarTimestamp j = some s ∧
      goParseInt64 s = some 1672531200 :=
  parseSidecarDate_epoch_and_no_default.2.2 c5fs
    (gs "/takeout/t.jpg.supplemental-metadata.json") 1672531200 (by decide)

/-! ## Per-file result invariant (C9) -/

theorem resultInv_fail (f : MediaFile) (a m : Str) :
    ((failResult f a m).success = true ↔ (failResult f a m).error = none) ∧
    ((failResult f a m).success = true → (failResult f a m).action ≠ []) := by
  simp [failResult]

theorem finishResult_action_ne (f : MediaFile) (a : Str) :
    (finishResult f a).action ≠ [] := by
  show (if a.isEmpty then gs "No action needed" else a) ≠ []
  by_cases ha : a.isEmpty = true
  · rw [if_pos ha]
    decide
  · rw [if_neg ha]
    simpa [List.isEmpty_iff] using ha

theorem resultInv_finish (f : MediaFile) (a : Str) :
    ((finishResult f a).success = true ↔ (finishResult f a).error = none) ∧
    ((finishResult f a).success = true → (finishResult f a).action ≠ []) :=
  ⟨by simp [finishResult], fun _ => finishResult_action_ne f a⟩

theorem resultInv_moveAndLink (cfg : GoConfig) (env : WorkerEnv)
    (file : MediaFile) (a : Str) (d : Int) :
    ((moveAndLink cfg env file a d).success = true ↔
      (moveAndLink cfg env file a d).error = none) ∧
    ((moveAndLink cfg env file a d).success = true →
      (moveAndLink cfg env file a d).action ≠ []) := by
  simp only [moveAndLink]
  repeat' split
  any_goals exact resultInv_finish _ _
  any_goals exact resultInv_fail _ _ _

/-- C9.  Every result produced by `processMediaFile` satisfies: the
success flag is set exactly when the error is nil, and a successful
result always carries a nonempty action text (defaulting to
`No action needed`). -/
theorem processMediaFile_result_invariant (cfg : GoConfig) (env : WorkerEnv)
    (file : MediaFile) :
    ((processMediaFile cfg env file).success = true ↔
      (processMediaFile cfg env file).error = none) ∧
    ((processMediaFile cfg env file).success = true →
      (processMediaFile cfg env file).action ≠ []) := by
  simp only [processMediaFile]
  repeat' split
  any_goals exact resultInv_moveAndLink _ _ _ _ _
  any_goals exact resultInv_fail _ _ _
